import Mathlib

/-!
Verification development for `docs/dummy_data.py`: a script that generates a
CSV file (`dummy_historical_data.csv`) of synthetic rows, each row built by
randomly sampling from fixed vocabulary lists.

The Python `random` module is modelled by an explicit random-source state
`RNG`: an infinite stream of naturals together with a read position.  Each
primitive (`randbelow`, `randint`, `choice`, `sample`) consumes entries of
the stream in order, exactly as the CPython primitives consume the
underlying generator.  `random.sample(pop, k)` raises `ValueError` when
`k > len(pop)`; the model returns `none` in that case (selection sampling
without replacement otherwise).
-/

namespace DummyData

/-- The state of the random source: an infinite stream of raw draws and the
position of the next unread entry. -/
structure RNG where
  stream : Nat → Nat
  pos : Nat

/-- Model of CPython `random._randbelow(n)`: one raw draw reduced mod `n`. -/
def randbelow (g : RNG) (n : Nat) : Nat × RNG :=
  (g.stream g.pos % n, ⟨g.stream, g.pos + 1⟩)

/-- Model of `random.randint(a, b)` (both endpoints inclusive). -/
def randint (a b : Nat) (g : RNG) : Nat × RNG :=
  let p := randbelow g (b + 1 - a)
  (a + p.1, p.2)

/-- Model of `random.choice(xs)`: a uniform index into the list. -/
def choice (xs : List String) (g : RNG) : String × RNG :=
  let p := randbelow g xs.length
  (xs.getD p.1 "", p.2)

/-- Selection sampling without replacement: pick an index into the remaining
population, remove it, recurse. -/
def sampleAux : List String → Nat → RNG → List String × RNG
  | _, 0, g => ([], g)
  | pop, k+1, g =>
    let p := randbelow g pop.length
    let x := pop.getD p.1 ""
    let q := sampleAux (pop.eraseIdx p.1) k p.2
    (x :: q.1, q.2)

/-- Model of `random.sample(pop, k)`: `none` models the `ValueError` raised
when `k` exceeds the population size. -/
def sample (pop : List String) (k : Nat) (g : RNG) : Option (List String × RNG) :=
  if k ≤ pop.length then some (sampleAux pop k g) else none

/-! ### The fixed vocabularies of `generate_random_data` -/

def burger_adjectives : List String :=
  ["Spicy", "Savory", "Smoky", "Sweet", "Classic", "Hearty", "Zesty", "Tangy", "Bold",
   "Crispy", "Juicy", "Sassy", "Fiery", "Cool", "Rich", "Roasted", "Smothered", "Charred"]

def burger_nouns : List String :=
  ["Rancher", "Outlaw", "Gourmet", "Titan", "Maverick", "Patriot", "King", "Queen",
   "Warrior", "Legend", "Voyager", "Nomad", "Wrangler", "Hunter", "Trapper"]

def toppings : List String :=
  ["jalape√±o poppers", "bacon", "cheddar cheese", "smoked brisket", "crispy onion straws",
   "BBQ sauce", "avocado", "sprouts", "vegan aioli", "pepper jack cheese",
   "sriracha mayo", "blue cheese crumbles", "caramelized onions", "bacon jam",
   "tzatziki sauce", "cucumber", "red onion", "feta cheese", "pineapple-glaze",
   "swiss cheese", "fried egg", "mushrooms", "chorizo", "salsa", "guacamole", "pickled red cabbage",
   "pulled pork", "provolone", "arugula", "roasted red peppers", "goat cheese", "pesto"]

def buns : List String :=
  ["brioche bun", "pretzel bun", "sesame seed bun", "potato bun", "gluten-free bun",
   "ciabatta roll", "kaiser roll", "rye bun"]

def shared_beers : List String :=
  ["Lagunitas IPA", "Sierra Nevada Pale Ale", "New Belgium Fat Tire",
   "Stone IPA", "Bell\x27s Two Hearted Ale", "Modelo Especial", "Corona Extra",
   "Founders All Day IPA", "Heineken", "Pabst Blue Ribbon",
   "Blue Moon Belgian White", "Coors Light", "Michelob Ultra", "Miller Lite",
   "Bud Light", "Stella Artois", "Yuengling Lager", "Shiner Bock",
   "Heineken 0.0", "Lagunitas Daytime IPA", "Stone Delicious IPA",
   "Sam Adams Boston Lager", "Dogfish Head 60 Minute IPA", "New Belgium Voodoo Ranger IPA",
   "Guinness Draught", "Firestone Walker 805", "Sierra Nevada Hazy Little Thing",
   "Anchor Steam Beer", "Founders Kentucky Breakfast Stout", "Oskar Blues Dale\x27s Pale Ale",
   "Allagash White", "Deschutes Fresh Squeezed IPA", "Troegs Perpetual IPA",
   "Goose Island IPA", "SweetWater 420 Pale Ale", "Narragansett Lager",
   "Victory Golden Monkey", "Cigar City Jai Alai IPA", "Stone Arrogant Bastard Ale",
   "Fat Tire Amber Ale", "Great Lakes Dortmunder Gold", "Left Hand Milk Stout",
   "Dogfish Head 90 Minute IPA", "Oskar Blues Old Chub", "Brooklyn Lager",
   "Bell\x27s Oberon Ale", "Rogue Dead Guy Ale", "Ballast Point Sculpin IPA",
   "21st Amendment Brew Free! or Die IPA", "Surly Furious IPA",
   "Kona Big Wave Golden Ale"]

def tap_only_beers : List String :=
  ["Pliny the Elder", "Russian River Blind Pig IPA", "Hill Farmstead Susan",
   "Tree House Julius", "The Alchemist Heady Topper", "Bell\x27s Expedition Stout",
   "Toppling Goliath King Sue", "3 Floyds Zombie Dust", "Trillium Congress Street IPA",
   "WeldWerks Juicy Bits", "Other Half Double Dry Hopped", "Monkish Foggy Glasses",
   "Prairie Artisan Ales Bomb!", "Avery The Reverend", "Lost Abbey Devotion Ale",
   "Cantillon Gueuze", "Orval Trappist Ale", "Chimay Blue", "Rochefort 10",
   "Westvleteren 12", "Fremont Bourbon Barrel Aged Dark Star", "Founders Breakfast Stout",
   "Surly Darkness", "Dogfish Head Palo Santo Marron", "North Coast Old Rasputin",
   "Great Lakes Edmund Fitzgerald Porter", "Half Acre Daisy Cutter Pale Ale",
   "New Glarus Spotted Cow", "Perennial Artisan Ales Abraxas", "Jester King Le Petit Prince",
   "Deschutes The Abyss", "Troegs Nugget Nectar", "Alesmith Speedway Stout",
   "Modern Times Fortunate Islands", "Firestone Walker Pivo Pils", "Green Flash West Coast IPA",
   "Port Brewing Hop 15", "Pizza Port Chronic Amber Ale", "Societe The Pupil IPA",
   "Alesmith IPA", "Karl Strauss Red Trolley Ale", "Stone Ripper Pale Ale",
   "Sierra Nevada Torpedo Extra IPA", "KBS", "SweetWater IPA", "Creature Comforts Tropicalia",
   "Funky Buddha Last Snow", "Goose Island Bourbon County Brand Stout"]

def can_only_beers : List String :=
  ["White Claw Hard Seltzer Mango", "Truly Wild Berry Seltzer", "Tecate",
   "Angry Orchard Crisp Apple", "Strongbow Original Dry Cider", "Smirnoff Ice",
   "High Noon Pineapple", "Cutwater Tequila Margarita", "Twisted Tea Original",
   "Mike\x27s Hard Lemonade", "Nutrl Watermelon", "Simply Spiked Lemonade",
   "Hard Seltzer Variety Packs", "Henry\x27s Hard Soda", "Spindrift Spiked",
   "Topo Chico Hard Seltzer", "Press Seltzer", "Flying Embers Hard Kombucha",
   "JuneShine Hard Kombucha", "Dogfish Head SeaQuench Ale", "Two Roads Two Juicy",
   "Jack Daniel\x27s Lynchburg Lemonade", "Old Style", "Coors Banquet",
   "Busch Light", "Keystone Light", "Pabst Blue Ribbon Easy", "Miller High Life",
   "Natural Light", "Bud Ice", "Genesee Cream Ale", "Red Stripe Lager",
   "Narragansett Fresh Catch", "Voodoo Ranger Juice Force IPA", "Odell 90 Shilling Ale",
   "Southern Tier Pumking Imperial Ale", "Dogfish Head Punkin Ale", "Wicked Weed Pernicious IPA",
   "Duvel Belgian Golden Ale", "Delirium Tremens", "Corsendonk Dubbel",
   "Lindemans Framboise Lambic", "Chimay White", "Stella Artois Cidre",
   "Oskar Blues Mama\x27s Little Yella Pils", "21st Amendment El Sully",
   "Ska Modus Hoperandi", "Uinta Cutthroat Pale Ale", "New Glarus Moon Man"]

def sticker_types : List String := [".png", ".jpg", ".svg"]

/-! ### Row generation -/

/-- `", ".join(xs)` / `str.join`: the separator between consecutive elements. -/
def joinSep (sep : String) : List String → String
  | [] => ""
  | [x] => x
  | x :: y :: xs => x ++ sep ++ joinSep sep (y :: xs)

/-- Python `str(n)` for a natural number: decimal digits, most significant
first. -/
def natToStr (n : Nat) : String :=
  if n = 0 then "0"
  else String.mk (((Nat.digits 10 n).reverse).map (fun d => Char.ofNat (48 + d)))

/-- The fixed prefix of the Facebook event URL. -/
def event_prefix : String := "https://www.google.com/search?q=https://facebook.com/events/"

/-- `generate_random_data()`: produces the five string fields
`[burger_description, tap_beers_str, can_beers_str, facebook_event, sticker_name]`,
threading the random source through every primitive in source order.
`list(set(xs))` is modelled as `xs.dedup` (a duplicate-free list with the
same elements; CPython's set iteration order is unspecified, and no claim
depends on the order). `none` models an uncaught `ValueError` from
`random.sample`. -/
def generate_random_data (g : RNG) : Option (List String × RNG) :=
  match sample shared_beers (min shared_beers.length 15) g with
  | none => none
  | some p1 =>
    let real_tap_beers := (tap_only_beers ++ p1.1).dedup
    match sample shared_beers (min shared_beers.length 15) p1.2 with
    | none => none
    | some p2 =>
      let real_can_beers := (can_only_beers ++ p2.1).dedup
      let c1 := choice burger_adjectives p2.2
      let c2 := choice burger_nouns c1.2
      let r1 := randint 2 4 c2.2
      match sample toppings r1.1 r1.2 with
      | none => none
      | some p3 =>
        let c3 := choice buns p3.2
        let burger_name := "The " ++ c1.1 ++ " " ++ c2.1
        let burger_description :=
          burger_name ++ " - " ++ joinSep ", " p3.1 ++ " on a " ++ c3.1
        let r2 := randint 1 4 c3.2
        match sample real_tap_beers r2.1 r2.2 with
        | none => none
        | some p4 =>
          let tap_beers_str := joinSep ", " p4.1
          let r3 := randint 4 6 p4.2
          match sample real_can_beers r3.1 r3.2 with
          | none => none
          | some p5 =>
            let can_beers_str := joinSep ", " p5.1
            let r4 := randint 1000000 9999999 p5.2
            let facebook_event := event_prefix ++ natToStr r4.1
            let r5 := randint 100 999 r4.2
            let c4 := choice sticker_types r5.2
            let sticker_name := "sticker" ++ natToStr r5.1 ++ c4.1
            some ([burger_description, tap_beers_str, can_beers_str,
                   facebook_event, sticker_name], c4.2)

/-! ### CSV writing (`create_csv_file`)

`csv.writer(file, delimiter=';', quoting=csv.QUOTE_ALL)` quotes every field
(doubling any embedded quote character) and terminates each record with the
default line terminator `"\r\n"`; the file is opened with `newline=''` so
the terminator is written verbatim. -/

/-- The fixed name of the output file. -/
def output_filename : String := "dummy_historical_data.csv"

/-- The fixed header record. -/
def header : List String :=
  ["Historical Burger", "Historical Tap Beers", "Historical Can Beers",
   "Historical Facebook Event", "Historical Sticker"]

/-- QUOTE_ALL escaping: an embedded quote character is doubled. -/
def escapeQuotes : List Char → List Char
  | [] => []
  | c :: cs => if c = '"' then '"' :: '"' :: escapeQuotes cs else c :: escapeQuotes cs

/-- A field as written under `QUOTE_ALL`: always wrapped in quotes. -/
def quoteField (s : String) : String :=
  "\"" ++ String.mk (escapeQuotes s.data) ++ "\""

/-- One record without its terminator: quoted fields joined by `';'`. -/
def serializeFields (r : List String) : String := joinSep ";" (r.map quoteField)

/-- One record as written to the file: fields plus the `"\r\n"` terminator. -/
def serializeRow (r : List String) : String := serializeFields r ++ "\r\n"

/-- The loop body of `create_csv_file`: generate `n` rows in order, threading
the random source; `none` if any row generation raises. -/
def writeRows : Nat → RNG → Option (List (List String) × RNG)
  | 0, g => some ([], g)
  | n+1, g =>
    match generate_random_data g with
    | none => none
    | some p =>
      match writeRows n p.2 with
      | none => none
      | some q => some (p.1 :: q.1, q.2)

/-- The records of the produced file, header first. -/
def create_csv_records (num_rows : Nat) (g : RNG) : Option (List (List String)) :=
  (writeRows num_rows g).map (fun p => header :: p.1)

/-- Sequential concatenation of the written chunks, in write order. -/
def concatAll : List String → String
  | [] => ""
  | s :: rest => s ++ concatAll rest

/-- `create_csv_file(num_rows=500)`: the full text written to
`dummy_historical_data.csv`. -/
def create_csv_file (g : RNG) (num_rows : Nat := 500) : Option String :=
  (create_csv_records num_rows g).map (fun recs => concatAll (recs.map serializeRow))

/-- Number of `'\n'`-terminated lines of a string. -/
def lineCount (s : String) : Nat := s.data.count '\n'

/-! ### Field well-formedness -/

/-- Characters that would interfere with the CSV dialect: the delimiter, the
quote character and line breaks. -/
def badChar (c : Char) : Bool := c = ';' || c = '"' || c = '\n' || c = '\r'

/-- A string free of delimiter, quote and line-break characters. -/
def cleanStr (s : String) : Bool := s.data.all (fun c => !(badChar c))

/-- Every entry of the list is non-empty and clean. -/
def goodVocab (l : List String) : Bool := l.all (fun s => !(s.isEmpty) && cleanStr s)

/-- A string free of line-break characters (a serialized record minus its
terminator is such a string). -/
def noNL (s : String) : Bool := s.data.all (fun c => !(c = '\n' || c = '\r'))

/-! ### A reader for the produced dialect

Models `csv.reader` with `delimiter=';'` and full quoting on files produced
by the writer above (no embedded line breaks): split on `'\n'`, strip the
`'\r'`, and parse each line as quoted fields joined by `';'`. -/

/-- Read a quoted field body up to its closing quote (a doubled quote is an
escaped quote character); returns the field text and the rest of the line. -/
def parseQuoted : List Char → Option (List Char × List Char)
  | [] => none
  | c :: rest =>
    if c = '"' then
      match rest with
      | c2 :: rest2 =>
        if c2 = '"' then (parseQuoted rest2).map (fun p => ('"' :: p.1, p.2))
        else some ([], rest)
      | [] => some ([], [])
    else (parseQuoted rest).map (fun p => (c :: p.1, p.2))

/-- Parse a full line as one or more quoted fields separated by `';'`;
the fuel bounds the number of fields. -/
def parseFieldsAux : Nat → List Char → Option (List String)
  | 0, _ => none
  | _+1, [] => none
  | fuel+1, c :: rest =>
    if c = '"' then
      (parseQuoted rest).bind (fun p =>
        match p.2 with
        | [] => some [String.mk p.1]
        | c2 :: r2 =>
          if c2 = ';' then (parseFieldsAux fuel r2).map (fun fs => String.mk p.1 :: fs)
          else none)
    else none

/-- Split a character stream into lines at each `'\n'`: the head of the
recursive split gets the current character prepended (the split of any
stream is non-empty). -/
def splitNL : List Char → List (List Char)
  | [] => [[]]
  | c :: rest =>
    if c = '\n' then [] :: splitNL rest
    else (c :: (splitNL rest).headI) :: (splitNL rest).tail

/-- Parse one line: it must end in `'\r'`; the rest is the field list. -/
def parseLine (l : List Char) : Option (List String) :=
  if l.getLast? = some '\r' then parseFieldsAux (l.length + 1) l.dropLast else none

/-- Parse the line chunks: every chunk but the last is a record; the last
chunk must be empty (the file ends with a line terminator). -/
def parseChunks : List (List Char) → Option (List (List String))
  | [] => none
  | [last] => if last = [] then some [] else none
  | line :: rest =>
    match parseLine line, parseChunks rest with
    | some r, some rs => some (r :: rs)
    | _, _ => none

/-- Parse a whole file back into its records. -/
def parseFile (s : String) : Option (List (List String)) := parseChunks (splitNL s.data)

/-! ### Specification predicates for the five fields -/

/-- The burger-description pattern of the first field. -/
def burgerOK (s : String) : Prop :=
  ∃ a n ts b, a ∈ burger_adjectives ∧ n ∈ burger_nouns ∧ b ∈ buns ∧
    2 ≤ ts.length ∧ ts.length ≤ 4 ∧ ts.Nodup ∧ (∀ t ∈ ts, t ∈ toppings) ∧
    s = "The " ++ a ++ " " ++ n ++ " - " ++ joinSep ", " ts ++ " on a " ++ b

/-- A comma-join of between `lo` and `hi` distinct elements of `pool`. -/
def beersOK (pool : List String) (lo hi : Nat) (s : String) : Prop :=
  ∃ sel, sel.Nodup ∧ lo ≤ sel.length ∧ sel.length ≤ hi ∧
    (∀ x ∈ sel, x ∈ pool) ∧ s = joinSep ", " sel

/-- The tap-beers pattern of the second field: the pool is the deduplicated
union of the tap-only list and a fresh size-`min(len,15)` subsample of the
shared list. -/
def tapOK (s : String) : Prop :=
  ∃ sub, sub.length = min shared_beers.length 15 ∧ sub.Nodup ∧
    (∀ x ∈ sub, x ∈ shared_beers) ∧
    beersOK ((tap_only_beers ++ sub).dedup) 1 4 s

/-- The can-beers pattern of the third field, built like `tapOK` from the
can-only list and its own independent subsample of the shared list. -/
def canOK (s : String) : Prop :=
  ∃ sub, sub.length = min shared_beers.length 15 ∧ sub.Nodup ∧
    (∀ x ∈ sub, x ∈ shared_beers) ∧
    beersOK ((can_only_beers ++ sub).dedup) 4 6 s

/-- The event-URL pattern of the fourth field. -/
def eventOK (s : String) : Prop :=
  ∃ m, 1000000 ≤ m ∧ m ≤ 9999999 ∧ (natToStr m).length = 7 ∧
    s = event_prefix ++ natToStr m

/-- The sticker-filename pattern of the fifth field. -/
def stickerOK (s : String) : Prop :=
  ∃ m ext, 100 ≤ m ∧ m ≤ 999 ∧ (natToStr m).length = 3 ∧ ext ∈ sticker_types ∧
    s = "sticker" ++ natToStr m ++ ext

/-- A well-formed generated row: exactly five fields, each matching its
pattern. -/
def rowOK (row : List String) : Prop :=
  ∃ f1 f2 f3 f4 f5, row = [f1, f2, f3, f4, f5] ∧
    burgerOK f1 ∧ tapOK f2 ∧ canOK f3 ∧ eventOK f4 ∧ stickerOK f5

/-- Two random-source states agree on their unread portion. -/
def agree (g1 g2 : RNG) : Prop :=
  ∀ k, g1.stream (g1.pos + k) = g2.stream (g2.pos + k)

/-- `g2` is a later state of the same stream as `g1`. -/
def reaches (g1 g2 : RNG) : Prop := g2.stream = g1.stream ∧ g1.pos ≤ g2.pos

/-! ### Lemmas about the random primitives -/

theorem randbelow_fst_lt (g : RNG) {n : Nat} (hn : 0 < n) : (randbelow g n).1 < n :=
  Nat.mod_lt _ hn

theorem randbelow_snd (g : RNG) (n : Nat) :
    (randbelow g n).2 = ⟨g.stream, g.pos + 1⟩ := rfl

theorem choice_mem (xs : List String) (g : RNG) (hxs : xs ≠ []) :
    (choice xs g).1 ∈ xs := by
  have hlen : 0 < xs.length := List.length_pos.mpr hxs
  have hlt : (randbelow g xs.length).1 < xs.length := randbelow_fst_lt g hlen
  show xs.getD (randbelow g xs.length).1 "" ∈ xs
  rw [List.getD_eq_getElem xs "" hlt]
  exact List.getElem_mem hlt

theorem choice_snd (xs : List String) (g : RNG) :
    (choice xs g).2 = ⟨g.stream, g.pos + 1⟩ := rfl

theorem randint_fst_le (a b : Nat) (g : RNG) (hab : a ≤ b) :
    a ≤ (randint a b g).1 ∧ (randint a b g).1 ≤ b := by
  refine ⟨Nat.le_add_right a _, ?_⟩
  have hpos : 0 < b + 1 - a := by omega
  have := randbelow_fst_lt g hpos
  show a + (randbelow g (b + 1 - a)).1 ≤ b
  omega

theorem randint_snd (a b : Nat) (g : RNG) :
    (randint a b g).2 = ⟨g.stream, g.pos + 1⟩ := rfl

theorem sampleAux_snd (k : Nat) :
    ∀ (pop : List String) (g : RNG),
      (sampleAux pop k g).2 = ⟨g.stream, g.pos + k⟩ := by
  induction k with
  | zero => intro pop g; rfl
  | succ k ih =>
    intro pop g
    show (sampleAux (pop.eraseIdx _) k ⟨g.stream, g.pos + 1⟩).2 = _
    rw [ih]
    simp [Nat.add_assoc, Nat.add_comm 1 k]

theorem sampleAux_spec (k : Nat) :
    ∀ (pop : List String) (g : RNG), k ≤ pop.length →
      (sampleAux pop k g).1.length = k ∧
      (∀ x ∈ (sampleAux pop k g).1, x ∈ pop) ∧
      (pop.Nodup → (sampleAux pop k g).1.Nodup) := by
  induction k with
  | zero =>
    intro pop g _
    refine ⟨rfl, ?_, ?_⟩
    · intro x hx
      exact absurd hx (by simp [sampleAux])
    · intro _
      exact List.nodup_nil
  | succ k ih =>
    intro pop g hk
    have hpos : 0 < pop.length := by omega
    have hidx : (randbelow g pop.length).1 < pop.length := randbelow_fst_lt g hpos
    have hrest : k ≤ (pop.eraseIdx (randbelow g pop.length).1).length := by
      rw [List.length_eraseIdx]
      simp only [hidx, if_pos]
      omega
    obtain ⟨ihlen, ihmem, ihnd⟩ :=
      ih (pop.eraseIdx (randbelow g pop.length).1) (randbelow g pop.length).2 hrest
    have hx : pop.getD (randbelow g pop.length).1 "" ∈ pop := by
      rw [List.getD_eq_getElem pop "" hidx]; exact List.getElem_mem hidx
    refine ⟨?_, ?_, ?_⟩
    · show (_ :: _).length = k + 1
      simp [ihlen]
    · intro x hx2
      rcases List.mem_cons.mp hx2 with h | h
      · exact h ▸ hx
      · exact (List.eraseIdx_sublist pop _).subset (ihmem x h)
    · intro hnd
      have hndrest : (pop.eraseIdx (randbelow g pop.length).1).Nodup :=
        (List.eraseIdx_sublist pop _).nodup hnd
      refine List.nodup_cons.mpr ⟨?_, ihnd hndrest⟩
      intro hmem
      have hmem2 := ihmem _ hmem
      rw [← hnd.erase_getElem _ hidx] at hmem2
      rw [List.getD_eq_getElem pop "" hidx] at hmem2
      exact hnd.not_mem_erase hmem2

theorem sample_eq_some (pop : List String) (k : Nat) (g : RNG) (hk : k ≤ pop.length) :
    sample pop k g = some (sampleAux pop k g) := by
  simp [sample, hk]

/-! ### Concrete facts about the vocabularies -/

theorem shared_beers_length : shared_beers.length = 51 := rfl
theorem toppings_length : toppings.length = 32 := rfl
theorem tap_only_length : tap_only_beers.length = 48 := rfl
theorem can_only_length : can_only_beers.length = 49 := rfl

theorem toppings_nodup : toppings.Nodup := by decide
theorem tap_only_nodup : tap_only_beers.Nodup := by decide
theorem can_only_nodup : can_only_beers.Nodup := by decide

/-- A duplicate-free list is no longer than any list containing it. -/
theorem length_le_of_nodup_subset {l l2 : List String}
    (hnd : l.Nodup) (hsub : l ⊆ l2) : l.length ≤ l2.length :=
  (List.subperm_of_subset hnd hsub).length_le

/-- The deduplicated tap pool always contains all 48 tap-only beers. -/
theorem tap_pool_ge (sub : List String) :
    48 ≤ ((tap_only_beers ++ sub).dedup).length := by
  have hsub : tap_only_beers ⊆ (tap_only_beers ++ sub).dedup := by
    intro x hx
    exact List.mem_dedup.mpr (List.mem_append_left _ hx)
  calc 48 = tap_only_beers.length := tap_only_length.symm
    _ ≤ _ := length_le_of_nodup_subset tap_only_nodup hsub

/-- The deduplicated can pool always contains all 49 can-only beers. -/
theorem can_pool_ge (sub : List String) :
    49 ≤ ((can_only_beers ++ sub).dedup).length := by
  have hsub : can_only_beers ⊆ (can_only_beers ++ sub).dedup := by
    intro x hx
    exact List.mem_dedup.mpr (List.mem_append_left _ hx)
  calc 49 = can_only_beers.length := can_only_length.symm
    _ ≤ _ := length_le_of_nodup_subset can_only_nodup hsub

/-! ### Decimal rendering -/

theorem natToStr_length {n : Nat} (hn : n ≠ 0) :
    (natToStr n).length = Nat.log 10 n + 1 := by
  unfold natToStr
  rw [if_neg hn]
  show (((Nat.digits 10 n).reverse).map (fun d => Char.ofNat (48 + d))).length = _
  rw [List.length_map, List.length_reverse, Nat.digits_len 10 n (by norm_num) hn]

theorem natToStr_length_seven {n : Nat} (h1 : 1000000 ≤ n) (h2 : n ≤ 9999999) :
    (natToStr n).length = 7 := by
  have hn : n ≠ 0 := by omega
  rw [natToStr_length hn]
  have : Nat.log 10 n = 6 :=
    Nat.log_eq_of_pow_le_of_lt_pow (by norm_num; omega) (by norm_num; omega)
  omega

theorem natToStr_length_three {n : Nat} (h1 : 100 ≤ n) (h2 : n ≤ 999) :
    (natToStr n).length = 3 := by
  have hn : n ≠ 0 := by omega
  rw [natToStr_length hn]
  have : Nat.log 10 n = 2 :=
    Nat.log_eq_of_pow_le_of_lt_pow (by norm_num; omega) (by norm_num; omega)
  omega

/-- Every character of a rendered number is a decimal digit, hence clean. -/
theorem natToStr_clean (n : Nat) : cleanStr (natToStr n) = true := by
  unfold natToStr cleanStr
  by_cases hn : n = 0
  · rw [if_pos hn]; decide
  · rw [if_neg hn]
    show (((Nat.digits 10 n).reverse).map (fun d => Char.ofNat (48 + d))).all _ = true
    rw [List.all_eq_true]
    intro c hc
    rw [List.mem_map] at hc
    obtain ⟨d, hd, hcd⟩ := hc
    rw [List.mem_reverse] at hd
    have hdlt : d < 10 := Nat.digits_lt_base (by norm_num) hd
    subst hcd
    interval_cases d <;> decide

theorem natToStr_ne_empty (n : Nat) : natToStr n ≠ "" := by
  intro h
  have : (natToStr n).length = 0 := by rw [h]; rfl
  by_cases hn : n = 0
  · rw [hn] at this
    exact absurd this (by decide)
  · rw [natToStr_length hn] at this
    omega

/-! ### Clean strings are closed under the assembly operations -/

theorem cleanStr_append (a b : String) :
    cleanStr (a ++ b) = (cleanStr a && cleanStr b) := by
  unfold cleanStr
  rw [String.data_append, List.all_append]

theorem cleanStr_joinSep {sep : String} (hsep : cleanStr sep = true) :
    ∀ {l : List String}, (∀ x ∈ l, cleanStr x = true) → cleanStr (joinSep sep l) = true := by
  intro l
  induction l with
  | nil => intro _; rfl
  | cons x xs ih =>
    intro hl
    cases xs with
    | nil => exact hl x (List.mem_singleton.mpr rfl)
    | cons y ys =>
      show cleanStr (x ++ sep ++ joinSep sep (y :: ys)) = true
      rw [cleanStr_append, cleanStr_append]
      have hx := hl x (List.mem_cons_self x _)
      have hrest : ∀ z ∈ y :: ys, cleanStr z = true :=
        fun z hz => hl z (List.mem_cons_of_mem x hz)
      rw [hx, hsep, ih hrest]
      rfl

theorem append_ne_empty_of_left {a b : String} (h : a.data ≠ []) : a ++ b ≠ "" := by
  intro he
  apply h
  have hd : (a ++ b).data = [] := by rw [he]
  rw [String.data_append] at hd
  exact (List.append_eq_nil.mp hd).1

/-! ### The vocabularies are well-formed -/

theorem goodVocab_adjectives : goodVocab burger_adjectives = true := by decide
theorem goodVocab_nouns : goodVocab burger_nouns = true := by decide
theorem goodVocab_toppings : goodVocab toppings = true := by decide
theorem goodVocab_buns : goodVocab buns = true := by decide
theorem goodVocab_shared : goodVocab shared_beers = true := by decide
theorem goodVocab_tap_only : goodVocab tap_only_beers = true := by decide
theorem goodVocab_can_only : goodVocab can_only_beers = true := by decide
theorem goodVocab_sticker : goodVocab sticker_types = true := by decide
theorem goodVocab_header : goodVocab header = true := by decide

theorem goodVocab_mem {l : List String} (hl : goodVocab l = true) {s : String}
    (hs : s ∈ l) : s ≠ "" ∧ cleanStr s = true := by
  unfold goodVocab at hl
  rw [List.all_eq_true] at hl
  have := hl s hs
  rw [Bool.and_eq_true] at this
  refine ⟨?_, this.2⟩
  intro he
  rw [he] at this
  exact absurd this.1 (by decide)

theorem shared_nodup : shared_beers.Nodup := by decide

theorem reaches_trans {a b c : RNG} (h1 : reaches a b) (h2 : reaches b c) :
    reaches a c :=
  ⟨h2.1.trans h1.1, le_trans h1.2 h2.2⟩

theorem reaches_succ (g : RNG) : reaches g ⟨g.stream, g.pos + 1⟩ :=
  ⟨rfl, Nat.le_succ _⟩

theorem reaches_sampleAux (pop : List String) (k : Nat) (g : RNG) :
    reaches g (sampleAux pop k g).2 := by
  rw [sampleAux_snd]
  exact ⟨rfl, Nat.le_add_right _ _⟩

/-- The central run lemma: on every random-source state, `generate_random_data`
succeeds, its row matches all five field patterns, and only the read position
of the random source advances. -/
theorem generate_row_spec (g : RNG) :
    ∃ row g2, generate_random_data g = some (row, g2) ∧ rowOK row ∧ reaches g g2 := by
  -- the two subsamples of the shared list
  obtain ⟨sub1, g1, h1⟩ :
      ∃ a b, sampleAux shared_beers (min shared_beers.length 15) g = (a, b) := ⟨_, _, rfl⟩
  obtain ⟨sub2, g2, h2⟩ :
      ∃ a b, sampleAux shared_beers (min shared_beers.length 15) g1 = (a, b) := ⟨_, _, rfl⟩
  have hsub1 := sampleAux_spec (min shared_beers.length 15) shared_beers g (Nat.min_le_left _ _)
  have hsub2 := sampleAux_spec (min shared_beers.length 15) shared_beers g1 (Nat.min_le_left _ _)
  rw [h1] at hsub1
  rw [h2] at hsub2
  have hr1 : reaches g g1 := by
    have := reaches_sampleAux shared_beers (min shared_beers.length 15) g
    rwa [h1] at this
  have hr2 : reaches g1 g2 := by
    have := reaches_sampleAux shared_beers (min shared_beers.length 15) g1
    rwa [h2] at this
  -- adjective, noun, topping count
  obtain ⟨adj, g3, hc1⟩ : ∃ a b, choice burger_adjectives g2 = (a, b) := ⟨_, _, rfl⟩
  obtain ⟨noun, g4, hc2⟩ : ∃ a b, choice burger_nouns g3 = (a, b) := ⟨_, _, rfl⟩
  obtain ⟨nt, g5, hrand1⟩ : ∃ a b, randint 2 4 g4 = (a, b) := ⟨_, _, rfl⟩
  have hadj : adj ∈ burger_adjectives := by
    have := choice_mem burger_adjectives g2 (by decide)
    rwa [hc1] at this
  have hnoun : noun ∈ burger_nouns := by
    have := choice_mem burger_nouns g3 (by decide)
    rwa [hc2] at this
  have hnt : 2 ≤ nt ∧ nt ≤ 4 := by
    have := randint_fst_le 2 4 g4 (by norm_num)
    rwa [hrand1] at this
  have hr3 : reaches g2 g3 := by
    have := reaches_succ g2
    rw [← choice_snd burger_adjectives g2, hc1] at this
    exact this
  have hr4 : reaches g3 g4 := by
    have := reaches_succ g3
    rw [← choice_snd burger_nouns g3, hc2] at this
    exact this
  have hr5 : reaches g4 g5 := by
    have := reaches_succ g4
    rw [← randint_snd 2 4 g4, hrand1] at this
    exact this
  -- toppings sample
  have hntlen : nt ≤ toppings.length := by rw [toppings_length]; omega
  obtain ⟨ts, g6, h3⟩ : ∃ a b, sampleAux toppings nt g5 = (a, b) := ⟨_, _, rfl⟩
  have hts := sampleAux_spec nt toppings g5 hntlen
  rw [h3] at hts
  have hr6 : reaches g5 g6 := by
    have := reaches_sampleAux toppings nt g5
    rwa [h3] at this
  -- bun
  obtain ⟨bun, g7, hc3⟩ : ∃ a b, choice buns g6 = (a, b) := ⟨_, _, rfl⟩
  have hbun : bun ∈ buns := by
    have := choice_mem buns g6 (by decide)
    rwa [hc3] at this
  have hr7 : reaches g6 g7 := by
    have := reaches_succ g6
    rw [← choice_snd buns g6, hc3] at this
    exact this
  -- tap selection
  obtain ⟨ntap, g8, hrand2⟩ : ∃ a b, randint 1 4 g7 = (a, b) := ⟨_, _, rfl⟩
  have hntap : 1 ≤ ntap ∧ ntap ≤ 4 := by
    have := randint_fst_le 1 4 g7 (by norm_num)
    rwa [hrand2] at this
  have hr8 : reaches g7 g8 := by
    have := reaches_succ g7
    rw [← randint_snd 1 4 g7, hrand2] at this
    exact this
  have htappool : ntap ≤ ((tap_only_beers ++ sub1).dedup).length := by
    have := tap_pool_ge sub1
    omega
  obtain ⟨tsel, g9, h4⟩ :
      ∃ a b, sampleAux ((tap_only_beers ++ sub1).dedup) ntap g8 = (a, b) := ⟨_, _, rfl⟩
  have htsel := sampleAux_spec ntap ((tap_only_beers ++ sub1).dedup) g8 htappool
  rw [h4] at htsel
  have hr9 : reaches g8 g9 := by
    have := reaches_sampleAux ((tap_only_beers ++ sub1).dedup) ntap g8
    rwa [h4] at this
  -- can selection
  obtain ⟨ncan, g10, hrand3⟩ : ∃ a b, randint 4 6 g9 = (a, b) := ⟨_, _, rfl⟩
  have hncan : 4 ≤ ncan ∧ ncan ≤ 6 := by
    have := randint_fst_le 4 6 g9 (by norm_num)
    rwa [hrand3] at this
  have hr10 : reaches g9 g10 := by
    have := reaches_succ g9
    rw [← randint_snd 4 6 g9, hrand3] at this
    exact this
  have hcanpool : ncan ≤ ((can_only_beers ++ sub2).dedup).length := by
    have := can_pool_ge sub2
    omega
  obtain ⟨csel, g11, h5⟩ :
      ∃ a b, sampleAux ((can_only_beers ++ sub2).dedup) ncan g10 = (a, b) := ⟨_, _, rfl⟩
  have hcsel := sampleAux_spec ncan ((can_only_beers ++ sub2).dedup) g10 hcanpool
  rw [h5] at hcsel
  have hr11 : reaches g10 g11 := by
    have := reaches_sampleAux ((can_only_beers ++ sub2).dedup) ncan g10
    rwa [h5] at this
  -- event number, sticker number, extension
  obtain ⟨ev, g12, hrand4⟩ : ∃ a b, randint 1000000 9999999 g11 = (a, b) := ⟨_, _, rfl⟩
  have hev : 1000000 ≤ ev ∧ ev ≤ 9999999 := by
    have := randint_fst_le 1000000 9999999 g11 (by norm_num)
    rwa [hrand4] at this
  have hr12 : reaches g11 g12 := by
    have := reaches_succ g11
    rw [← randint_snd 1000000 9999999 g11, hrand4] at this
    exact this
  obtain ⟨st, g13, hrand5⟩ : ∃ a b, randint 100 999 g12 = (a, b) := ⟨_, _, rfl⟩
  have hst : 100 ≤ st ∧ st ≤ 999 := by
    have := randint_fst_le 100 999 g12 (by norm_num)
    rwa [hrand5] at this
  have hr13 : reaches g12 g13 := by
    have := reaches_succ g12
    rw [← randint_snd 100 999 g12, hrand5] at this
    exact this
  obtain ⟨ext, g14, hc4⟩ : ∃ a b, choice sticker_types g13 = (a, b) := ⟨_, _, rfl⟩
  have hext : ext ∈ sticker_types := by
    have := choice_mem sticker_types g13 (by decide)
    rwa [hc4] at this
  have hr14 : reaches g13 g14 := by
    have := reaches_succ g13
    rw [← choice_snd sticker_types g13, hc4] at this
    exact this
  -- assemble the run
  have hrun : generate_random_data g =
      some (["The " ++ adj ++ " " ++ noun ++ " - " ++ joinSep ", " ts ++ " on a " ++ bun,
             joinSep ", " tsel, joinSep ", " csel,
             event_prefix ++ natToStr ev,
             "sticker" ++ natToStr st ++ ext], g14) := by
    simp only [generate_random_data,
      sample_eq_some shared_beers (min shared_beers.length 15) g (Nat.min_le_left _ _),
      h1]
    simp only [sample_eq_some shared_beers (min shared_beers.length 15) g1 (Nat.min_le_left _ _),
      h2, hc1, hc2, hrand1]
    simp only [sample_eq_some toppings nt g5 hntlen, h3, hc3, hrand2]
    simp only [sample_eq_some ((tap_only_beers ++ sub1).dedup) ntap g8 htappool, h4, hrand3]
    simp only [sample_eq_some ((can_only_beers ++ sub2).dedup) ncan g10 hcanpool, h5,
      hrand4, hrand5, hc4]
  refine ⟨_, g14, hrun, ?_, ?_⟩
  · refine ⟨_, _, _, _, _, rfl, ?_, ?_, ?_, ?_, ?_⟩
    · exact ⟨adj, noun, ts, bun, hadj, hnoun, hbun,
        hts.1 ▸ hnt.1, hts.1 ▸ hnt.2, hts.2.2 toppings_nodup, hts.2.1, rfl⟩
    · refine ⟨sub1, hsub1.1, hsub1.2.2 shared_nodup, hsub1.2.1, ?_⟩
      exact ⟨tsel, htsel.2.2 (List.nodup_dedup _), htsel.1 ▸ hntap.1, htsel.1 ▸ hntap.2,
        htsel.2.1, rfl⟩
    · refine ⟨sub2, hsub2.1, hsub2.2.2 shared_nodup, hsub2.2.1, ?_⟩
      exact ⟨csel, hcsel.2.2 (List.nodup_dedup _), hcsel.1 ▸ hncan.1, hcsel.1 ▸ hncan.2,
        hcsel.2.1, rfl⟩
    · exact ⟨ev, hev.1, hev.2, natToStr_length_seven hev.1 hev.2, rfl⟩
    · exact ⟨st, ext, hst.1, hst.2, natToStr_length_three hst.1 hst.2, hext, rfl⟩
  · exact reaches_trans hr1 (reaches_trans hr2 (reaches_trans hr3 (reaches_trans hr4
      (reaches_trans hr5 (reaches_trans hr6 (reaches_trans hr7 (reaches_trans hr8
      (reaches_trans hr9 (reaches_trans hr10 (reaches_trans hr11 (reaches_trans hr12
      (reaches_trans hr13 hr14))))))))))))

/-! ### Claims C2 - C6: the five field patterns -/

/-- C2: on every random-source state, `generate_random_data` returns five
fields, and the first is the burger description
`"The {adjective} {noun} - {topping1, topping2, ...} on a {bun}"` with the
adjective, noun and bun drawn from their fixed lists and 2 to 4 pairwise
distinct toppings drawn without replacement from the fixed toppings list. -/
theorem claim_C2_burger_description (g : RNG) :
    ∃ f1 f2 f3 f4 f5 g2,
      generate_random_data g = some ([f1, f2, f3, f4, f5], g2) ∧ burgerOK f1 := by
  obtain ⟨row, g2, hrun, hrow, _⟩ := generate_row_spec g
  obtain ⟨f1, f2, f3, f4, f5, hfields, hb, ht, hc, he, hs⟩ := hrow
  subst hfields
  exact ⟨f1, f2, f3, f4, f5, g2, hrun, hb⟩

/-- C3: the second field is the comma-join of 1 to 4 pairwise-distinct beers
sampled without replacement from the tap pool, namely the deduplicated union
of the tap-only list and a per-call subsample of size
`min(len(shared_beers), 15)` of the shared list. -/
theorem claim_C3_tap_beers (g : RNG) :
    ∃ f1 f2 f3 f4 f5 g2,
      generate_random_data g = some ([f1, f2, f3, f4, f5], g2) ∧ tapOK f2 := by
  obtain ⟨row, g2, hrun, hrow, _⟩ := generate_row_spec g
  obtain ⟨f1, f2, f3, f4, f5, hfields, hb, ht, hc, he, hs⟩ := hrow
  subst hfields
  exact ⟨f1, f2, f3, f4, f5, g2, hrun, ht⟩

/-- C4: the third field is the comma-join of 4 to 6 pairwise-distinct beers
sampled without replacement from the can pool, namely the deduplicated union
of the can-only list and its own fresh subsample of size
`min(len(shared_beers), 15)` of the shared list. -/
theorem claim_C4_can_beers (g : RNG) :
    ∃ f1 f2 f3 f4 f5 g2,
      generate_random_data g = some ([f1, f2, f3, f4, f5], g2) ∧ canOK f3 := by
  obtain ⟨row, g2, hrun, hrow, _⟩ := generate_row_spec g
  obtain ⟨f1, f2, f3, f4, f5, hfields, hb, ht, hc, he, hs⟩ := hrow
  subst hfields
  exact ⟨f1, f2, f3, f4, f5, g2, hrun, hc⟩

/-- C5: the fourth field is exactly the fixed prefix
`"https://www.google.com/search?q=https://facebook.com/events/"` followed by
the decimal rendering (7 digits) of an integer in `[1000000, 9999999]`, and
nothing else. -/
theorem claim_C5_event_url (g : RNG) :
    ∃ f1 f2 f3 f4 f5 g2,
      generate_random_data g = some ([f1, f2, f3, f4, f5], g2) ∧ eventOK f4 := by
  obtain ⟨row, g2, hrun, hrow, _⟩ := generate_row_spec g
  obtain ⟨f1, f2, f3, f4, f5, hfields, hb, ht, hc, he, hs⟩ := hrow
  subst hfields
  exact ⟨f1, f2, f3, f4, f5, g2, hrun, he⟩

/-- C6: the fifth field is exactly `"sticker"` followed by the decimal
rendering (3 digits) of an integer in `[100, 999]` followed by one of the
extensions `.png`, `.jpg`, `.svg`. -/
theorem claim_C6_sticker_name (g : RNG) :
    ∃ f1 f2 f3 f4 f5 g2,
      generate_random_data g = some ([f1, f2, f3, f4, f5], g2) ∧ stickerOK f5 := by
  obtain ⟨row, g2, hrun, hrow, _⟩ := generate_row_spec g
  obtain ⟨f1, f2, f3, f4, f5, hfields, hb, ht, hc, he, hs⟩ := hrow
  subst hfields
  exact ⟨f1, f2, f3, f4, f5, g2, hrun, hs⟩

/-- C9: every sampling call inside `generate_random_data` requests at most as
many elements as its population holds — the toppings list has at least 4
entries, the shared list at least 15, and for any subsample the deduplicated
tap pool has at least 4 entries and the can pool at least 6 — so the
without-replacement sampling failure is unreachable and the function always
returns a row. -/
theorem claim_C9_sampling_never_fails (g : RNG) :
    4 ≤ toppings.length ∧ 15 ≤ shared_beers.length ∧
    (∀ sub : List String,
      4 ≤ ((tap_only_beers ++ sub).dedup).length ∧
      6 ≤ ((can_only_beers ++ sub).dedup).length) ∧
    (generate_random_data g).isSome = true := by
  refine ⟨by decide, by decide, ?_, ?_⟩
  · intro sub
    exact ⟨le_trans (by norm_num) (tap_pool_ge sub),
           le_trans (by norm_num) (can_pool_ge sub)⟩
  · obtain ⟨row, g2, hrun, _, _⟩ := generate_row_spec g
    rw [hrun]
    rfl

/-! ### Claim C8: purity / noninterference

`generate_random_data` reads nothing but the unread portion of the random
source and modifies nothing but its read position: two states agreeing on
their unread streams produce the same row, and the output state keeps the
input's stream unchanged. -/

theorem agree_succ {g1 g2 : RNG} (h : agree g1 g2) :
    agree ⟨g1.stream, g1.pos + 1⟩ ⟨g2.stream, g2.pos + 1⟩ := by
  intro k
  have := h (1 + k)
  simpa [Nat.add_assoc] using this

theorem randbelow_agree {g1 g2 : RNG} (h : agree g1 g2) (n : Nat) :
    (randbelow g1 n).1 = (randbelow g2 n).1 ∧
      agree (randbelow g1 n).2 (randbelow g2 n).2 := by
  constructor
  · show g1.stream g1.pos % n = g2.stream g2.pos % n
    have := h 0
    simp only [Nat.add_zero] at this
    rw [this]
  · exact agree_succ h

theorem choice_agree {g1 g2 : RNG} (h : agree g1 g2) (xs : List String) :
    (choice xs g1).1 = (choice xs g2).1 ∧ agree (choice xs g1).2 (choice xs g2).2 := by
  obtain ⟨h1, h2⟩ := randbelow_agree h xs.length
  exact ⟨by show xs.getD _ "" = xs.getD _ ""; rw [h1], h2⟩

theorem randint_agree {g1 g2 : RNG} (h : agree g1 g2) (a b : Nat) :
    (randint a b g1).1 = (randint a b g2).1 ∧
      agree (randint a b g1).2 (randint a b g2).2 := by
  obtain ⟨h1, h2⟩ := randbelow_agree h (b + 1 - a)
  exact ⟨by show a + _ = a + _; rw [h1], h2⟩

theorem sampleAux_agree (k : Nat) :
    ∀ (pop : List String) {g1 g2 : RNG}, agree g1 g2 →
      (sampleAux pop k g1).1 = (sampleAux pop k g2).1 ∧
        agree (sampleAux pop k g1).2 (sampleAux pop k g2).2 := by
  induction k with
  | zero => intro pop g1 g2 h; exact ⟨rfl, h⟩
  | succ k ih =>
    intro pop g1 g2 h
    obtain ⟨hv, hnext⟩ := randbelow_agree h pop.length
    have hrec := ih (pop.eraseIdx (randbelow g1 pop.length).1) hnext
    constructor
    · show pop.getD (randbelow g1 pop.length).1 "" ::
        (sampleAux (pop.eraseIdx (randbelow g1 pop.length).1) k (randbelow g1 pop.length).2).1 =
        pop.getD (randbelow g2 pop.length).1 "" ::
        (sampleAux (pop.eraseIdx (randbelow g2 pop.length).1) k (randbelow g2 pop.length).2).1
      rw [← hv]
      exact congrArg _ hrec.1
    · show agree
        (sampleAux (pop.eraseIdx (randbelow g1 pop.length).1) k (randbelow g1 pop.length).2).2
        (sampleAux (pop.eraseIdx (randbelow g2 pop.length).1) k (randbelow g2 pop.length).2).2
      rw [← hv]
      exact hrec.2

/-- C8: `generate_random_data` has no effect beyond consuming the random
source: two invocations whose random sources agree on the unread stream
return the same row, the resulting sources still agree, and each invocation
leaves its source's stream intact and only advances its read position. -/
theorem claim_C8_pure_function_of_random_source (g1 g2 : RNG) (h : agree g1 g2) :
    ∃ row r1 r2, generate_random_data g1 = some (row, r1) ∧
      generate_random_data g2 = some (row, r2) ∧ agree r1 r2 ∧
      r1.stream = g1.stream ∧ r2.stream = g2.stream ∧
      g1.pos ≤ r1.pos ∧ g2.pos ≤ r2.pos := by
  -- destructure both runs in lockstep, merging equal values as they appear
  obtain ⟨sub1, ga1, h1a⟩ :
      ∃ a b, sampleAux shared_beers (min shared_beers.length 15) g1 = (a, b) := ⟨_, _, rfl⟩
  obtain ⟨sub1b, gb1, h1b⟩ :
      ∃ a b, sampleAux shared_beers (min shared_beers.length 15) g2 = (a, b) := ⟨_, _, rfl⟩
  have hstep := sampleAux_agree (min shared_beers.length 15) shared_beers h
  rw [h1a, h1b] at hstep
  have hveq : sub1 = sub1b := hstep.1
  subst hveq
  have hag1 : agree ga1 gb1 := hstep.2
  obtain ⟨sub2, ga2, h2a⟩ :
      ∃ a b, sampleAux shared_beers (min shared_beers.length 15) ga1 = (a, b) := ⟨_, _, rfl⟩
  obtain ⟨sub2b, gb2, h2b⟩ :
      ∃ a b, sampleAux shared_beers (min shared_beers.length 15) gb1 = (a, b) := ⟨_, _, rfl⟩
  have hstep2 := sampleAux_agree (min shared_beers.length 15) shared_beers hag1
  rw [h2a, h2b] at hstep2
  have hveq2 : sub2 = sub2b := hstep2.1
  subst hveq2
  have hag2 : agree ga2 gb2 := hstep2.2
  obtain ⟨adj, ga3, h3a⟩ : ∃ a b, choice burger_adjectives ga2 = (a, b) := ⟨_, _, rfl⟩
  obtain ⟨adjb, gb3, h3b⟩ : ∃ a b, choice burger_adjectives gb2 = (a, b) := ⟨_, _, rfl⟩
  have hstep3 := choice_agree hag2 burger_adjectives
  rw [h3a, h3b] at hstep3
  have hveq3 : adj = adjb := hstep3.1
  subst hveq3
  have hag3 : agree ga3 gb3 := hstep3.2
  obtain ⟨noun, ga4, h4a⟩ : ∃ a b, choice burger_nouns ga3 = (a, b) := ⟨_, _, rfl⟩
  obtain ⟨nounb, gb4, h4b⟩ : ∃ a b, choice burger_nouns gb3 = (a, b) := ⟨_, _, rfl⟩
  have hstep4 := choice_agree hag3 burger_nouns
  rw [h4a, h4b] at hstep4
  have hveq4 : noun = nounb := hstep4.1
  subst hveq4
  have hag4 : agree ga4 gb4 := hstep4.2
  obtain ⟨nt, ga5, h5a⟩ : ∃ a b, randint 2 4 ga4 = (a, b) := ⟨_, _, rfl⟩
  obtain ⟨ntb, gb5, h5b⟩ : ∃ a b, randint 2 4 gb4 = (a, b) := ⟨_, _, rfl⟩
  have hstep5 := randint_agree hag4 2 4
  rw [h5a, h5b] at hstep5
  have hveq5 : nt = ntb := hstep5.1
  subst hveq5
  have hag5 : agree ga5 gb5 := hstep5.2
  have hnt : 2 ≤ nt ∧ nt ≤ 4 := by
    have := randint_fst_le 2 4 ga4 (by norm_num)
    rwa [h5a] at this
  have hntlen : nt ≤ toppings.length := by rw [toppings_length]; omega
  obtain ⟨ts, ga6, h6a⟩ : ∃ a b, sampleAux toppings nt ga5 = (a, b) := ⟨_, _, rfl⟩
  obtain ⟨tsb, gb6, h6b⟩ : ∃ a b, sampleAux toppings nt gb5 = (a, b) := ⟨_, _, rfl⟩
  have hstep6 := sampleAux_agree nt toppings hag5
  rw [h6a, h6b] at hstep6
  have hveq6 : ts = tsb := hstep6.1
  subst hveq6
  have hag6 : agree ga6 gb6 := hstep6.2
  obtain ⟨bun, ga7, h7a⟩ : ∃ a b, choice buns ga6 = (a, b) := ⟨_, _, rfl⟩
  obtain ⟨bunb, gb7, h7b⟩ : ∃ a b, choice buns gb6 = (a, b) := ⟨_, _, rfl⟩
  have hstep7 := choice_agree hag6 buns
  rw [h7a, h7b] at hstep7
  have hveq7 : bun = bunb := hstep7.1
  subst hveq7
  have hag7 : agree ga7 gb7 := hstep7.2
  obtain ⟨ntap, ga8, h8a⟩ : ∃ a b, randint 1 4 ga7 = (a, b) := ⟨_, _, rfl⟩
  obtain ⟨ntapb, gb8, h8b⟩ : ∃ a b, randint 1 4 gb7 = (a, b) := ⟨_, _, rfl⟩
  have hstep8 := randint_agree hag7 1 4
  rw [h8a, h8b] at hstep8
  have hveq8 : ntap = ntapb := hstep8.1
  subst hveq8
  have hag8 : agree ga8 gb8 := hstep8.2
  have hntap : 1 ≤ ntap ∧ ntap ≤ 4 := by
    have := randint_fst_le 1 4 ga7 (by norm_num)
    rwa [h8a] at this
  have htappool : ntap ≤ ((tap_only_beers ++ sub1).dedup).length := by
    have := tap_pool_ge sub1
    omega
  obtain ⟨tsel, ga9, h9a⟩ :
      ∃ a b, sampleAux ((tap_only_beers ++ sub1).dedup) ntap ga8 = (a, b) := ⟨_, _, rfl⟩
  obtain ⟨tselb, gb9, h9b⟩ :
      ∃ a b, sampleAux ((tap_only_beers ++ sub1).dedup) ntap gb8 = (a, b) := ⟨_, _, rfl⟩
  have hstep9 := sampleAux_agree ntap ((tap_only_beers ++ sub1).dedup) hag8
  rw [h9a, h9b] at hstep9
  have hveq9 : tsel = tselb := hstep9.1
  subst hveq9
  have hag9 : agree ga9 gb9 := hstep9.2
  obtain ⟨ncan, ga10, h10a⟩ : ∃ a b, randint 4 6 ga9 = (a, b) := ⟨_, _, rfl⟩
  obtain ⟨ncanb, gb10, h10b⟩ : ∃ a b, randint 4 6 gb9 = (a, b) := ⟨_, _, rfl⟩
  have hstep10 := randint_agree hag9 4 6
  rw [h10a, h10b] at hstep10
  have hveq10 : ncan = ncanb := hstep10.1
  subst hveq10
  have hag10 : agree ga10 gb10 := hstep10.2
  have hncan : 4 ≤ ncan ∧ ncan ≤ 6 := by
    have := randint_fst_le 4 6 ga9 (by norm_num)
    rwa [h10a] at this
  have hcanpool : ncan ≤ ((can_only_beers ++ sub2).dedup).length := by
    have := can_pool_ge sub2
    omega
  obtain ⟨csel, ga11, h11a⟩ :
      ∃ a b, sampleAux ((can_only_beers ++ sub2).dedup) ncan ga10 = (a, b) := ⟨_, _, rfl⟩
  obtain ⟨cselb, gb11, h11b⟩ :
      ∃ a b, sampleAux ((can_only_beers ++ sub2).dedup) ncan gb10 = (a, b) := ⟨_, _, rfl⟩
  have hstep11 := sampleAux_agree ncan ((can_only_beers ++ sub2).dedup) hag10
  rw [h11a, h11b] at hstep11
  have hveq11 : csel = cselb := hstep11.1
  subst hveq11
  have hag11 : agree ga11 gb11 := hstep11.2
  obtain ⟨ev, ga12, h12a⟩ : ∃ a b, randint 1000000 9999999 ga11 = (a, b) := ⟨_, _, rfl⟩
  obtain ⟨evb, gb12, h12b⟩ : ∃ a b, randint 1000000 9999999 gb11 = (a, b) := ⟨_, _, rfl⟩
  have hstep12 := randint_agree hag11 1000000 9999999
  rw [h12a, h12b] at hstep12
  have hveq12 : ev = evb := hstep12.1
  subst hveq12
  have hag12 : agree ga12 gb12 := hstep12.2
  obtain ⟨st, ga13, h13a⟩ : ∃ a b, randint 100 999 ga12 = (a, b) := ⟨_, _, rfl⟩
  obtain ⟨stb, gb13, h13b⟩ : ∃ a b, randint 100 999 gb12 = (a, b) := ⟨_, _, rfl⟩
  have hstep13 := randint_agree hag12 100 999
  rw [h13a, h13b] at hstep13
  have hveq13 : st = stb := hstep13.1
  subst hveq13
  have hag13 : agree ga13 gb13 := hstep13.2
  obtain ⟨ext, ga14, h14a⟩ : ∃ a b, choice sticker_types ga13 = (a, b) := ⟨_, _, rfl⟩
  obtain ⟨extb, gb14, h14b⟩ : ∃ a b, choice sticker_types gb13 = (a, b) := ⟨_, _, rfl⟩
  have hstep14 := choice_agree hag13 sticker_types
  rw [h14a, h14b] at hstep14
  have hveq14 : ext = extb := hstep14.1
  subst hveq14
  have hag14 : agree ga14 gb14 := hstep14.2
  -- assemble both run equations
  have hrun1 : generate_random_data g1 =
      some (["The " ++ adj ++ " " ++ noun ++ " - " ++ joinSep ", " ts ++ " on a " ++ bun,
             joinSep ", " tsel, joinSep ", " csel,
             event_prefix ++ natToStr ev,
             "sticker" ++ natToStr st ++ ext], ga14) := by
    simp only [generate_random_data,
      sample_eq_some shared_beers (min shared_beers.length 15) g1 (Nat.min_le_left _ _),
      h1a]
    simp only [sample_eq_some shared_beers (min shared_beers.length 15) ga1
      (Nat.min_le_left _ _), h2a, h3a, h4a, h5a]
    simp only [sample_eq_some toppings nt ga5 hntlen, h6a, h7a, h8a]
    simp only [sample_eq_some ((tap_only_beers ++ sub1).dedup) ntap ga8 htappool, h9a, h10a]
    simp only [sample_eq_some ((can_only_beers ++ sub2).dedup) ncan ga10 hcanpool, h11a,
      h12a, h13a, h14a]
  have hrun2 : generate_random_data g2 =
      some (["The " ++ adj ++ " " ++ noun ++ " - " ++ joinSep ", " ts ++ " on a " ++ bun,
             joinSep ", " tsel, joinSep ", " csel,
             event_prefix ++ natToStr ev,
             "sticker" ++ natToStr st ++ ext], gb14) := by
    simp only [generate_random_data,
      sample_eq_some shared_beers (min shared_beers.length 15) g2 (Nat.min_le_left _ _),
      h1b]
    simp only [sample_eq_some shared_beers (min shared_beers.length 15) gb1
      (Nat.min_le_left _ _), h2b, h3b, h4b, h5b]
    simp only [sample_eq_some toppings nt gb5 hntlen, h6b, h7b, h8b]
    simp only [sample_eq_some ((tap_only_beers ++ sub1).dedup) ntap gb8 htappool, h9b, h10b]
    simp only [sample_eq_some ((can_only_beers ++ sub2).dedup) ncan gb10 hcanpool, h11b,
      h12b, h13b, h14b]
  -- stream preservation and position monotonicity from the generic run lemma
  obtain ⟨row1, r1, e1, _, hreach1⟩ := generate_row_spec g1
  obtain ⟨row2, r2, e2, _, hreach2⟩ := generate_row_spec g2
  have hre1 : r1.stream = g1.stream ∧ g1.pos ≤ r1.pos := hreach1
  have hre2 : r2.stream = g2.stream ∧ g2.pos ≤ r2.pos := hreach2
  have hpair1 := Option.some.inj (hrun1.symm.trans e1)
  have hpair2 := Option.some.inj (hrun2.symm.trans e2)
  have hga : ga14 = r1 := congrArg Prod.snd hpair1
  have hgb : gb14 = r2 := congrArg Prod.snd hpair2
  refine ⟨_, ga14, gb14, hrun1, hrun2, hag14, ?_, ?_, ?_, ?_⟩
  · rw [hga]
    exact hre1.1
  · rw [hgb]
    exact hre2.1
  · rw [hga]
    exact hre1.2
  · rw [hgb]
    exact hre2.2

/-- Witness for C8 at two concrete agreeing states (same constant stream,
different read positions). -/
theorem claim_C8_witness :
    agree ⟨fun _ => 0, 0⟩ ⟨fun _ => 0, 5⟩ ∧
    (∃ row r1 r2, generate_random_data ⟨fun _ => 0, 0⟩ = some (row, r1) ∧
      generate_random_data ⟨fun _ => 0, 5⟩ = some (row, r2) ∧ agree r1 r2 ∧
      r1.stream = (⟨fun _ => 0, 0⟩ : RNG).stream ∧
      r2.stream = (⟨fun _ => 0, 5⟩ : RNG).stream ∧
      (⟨fun _ => 0, 0⟩ : RNG).pos ≤ r1.pos ∧
      (⟨fun _ => 0, 5⟩ : RNG).pos ≤ r2.pos) :=
  ⟨fun _ => rfl,
   claim_C8_pure_function_of_random_source ⟨fun _ => 0, 0⟩ ⟨fun _ => 0, 5⟩ (fun _ => rfl)⟩

/-! ### Claim C10: fields are non-empty, clean, and rows occupy one line -/

theorem prefix_append_ne_empty (a b : String) (ha : a ≠ "") : a ++ b ≠ "" := by
  intro h
  apply ha
  have hl := congrArg String.length h
  rw [String.length_append] at hl
  have ha0 : a.length = 0 := by
    have : String.length "" = 0 := rfl
    omega
  have hdata : a.data = [] := List.length_eq_zero.mp ha0
  have : a = String.mk a.data := rfl
  rw [this, hdata]

theorem cleanStr_chars {s : String} (h : cleanStr s = true) :
    ∀ c ∈ s.data, c ≠ ';' ∧ c ≠ '"' ∧ c ≠ '\n' ∧ c ≠ '\r' := by
  unfold cleanStr at h
  rw [List.all_eq_true] at h
  intro c hc
  have := h c hc
  simp [badChar] at this
  exact ⟨this.1.1.1, this.1.1.2, this.1.2, this.2⟩

theorem cleanStr_to_noNL {s : String} (h : cleanStr s = true) : noNL s = true := by
  unfold noNL
  rw [List.all_eq_true]
  intro c hc
  obtain ⟨_, _, h3, h4⟩ := cleanStr_chars h c hc
  simp [h3, h4]

theorem escapeQuotes_of_clean : ∀ {l : List Char}, (∀ c ∈ l, c ≠ '"') →
    escapeQuotes l = l := by
  intro l
  induction l with
  | nil => intro _; rfl
  | cons c cs ih =>
    intro h
    show (if c = '"' then _ else c :: escapeQuotes cs) = c :: cs
    rw [if_neg (h c (List.mem_cons_self c cs)), ih (fun d hd => h d (List.mem_cons_of_mem c hd))]

theorem quoteField_data_of_clean {f : String} (h : cleanStr f = true) :
    (quoteField f).data = '"' :: (f.data ++ ['"']) := by
  unfold quoteField
  rw [String.data_append, String.data_append]
  rw [escapeQuotes_of_clean (fun c hc => (cleanStr_chars h c hc).2.1)]
  rfl

theorem joinSep_all (p : Char → Bool) {sep : String} (hsep : sep.data.all p = true) :
    ∀ {l : List String}, (∀ x ∈ l, x.data.all p = true) →
      (joinSep sep l).data.all p = true := by
  intro l
  induction l with
  | nil => intro _; rfl
  | cons x xs ih =>
    intro hl
    cases xs with
    | nil => exact hl x (List.mem_singleton.mpr rfl)
    | cons y ys =>
      show ((x ++ sep ++ joinSep sep (y :: ys))).data.all p = true
      rw [String.data_append, String.data_append, List.all_append, List.all_append]
      rw [hl x (List.mem_cons_self x _), hsep,
        ih (fun z hz => hl z (List.mem_cons_of_mem x hz))]
      rfl

theorem noNL_serializeFields {r : List String} (h : ∀ f ∈ r, cleanStr f = true) :
    noNL (serializeFields r) = true := by
  unfold noNL serializeFields
  apply joinSep_all _ (by decide)
  intro x hx
  rw [List.mem_map] at hx
  obtain ⟨f, hf, rfl⟩ := hx
  rw [quoteField_data_of_clean (h f hf)]
  rw [List.all_eq_true]
  intro c hc
  simp only [List.mem_cons, List.mem_append, List.not_mem_nil, or_false] at hc
  rcases hc with rfl | hc | rfl
  · decide
  · have := cleanStr_chars (h f hf) c hc
    simp [this.2.2.1, this.2.2.2]
  · decide

theorem serializeRow_data {r : List String} :
    (serializeRow r).data = (serializeFields r).data ++ ['\r', '\n'] := by
  unfold serializeRow
  rw [String.data_append]

theorem serializeRow_counts {r : List String} (h : ∀ f ∈ r, cleanStr f = true) :
    (serializeRow r).data.count '\n' = 1 ∧ (serializeRow r).data.count '\r' = 1 := by
  have hn := noNL_serializeFields h
  unfold noNL at hn
  rw [List.all_eq_true] at hn
  have hnl : '\n' ∉ (serializeFields r).data := by
    intro hc
    have := hn _ hc
    simp at this
  have hcr : '\r' ∉ (serializeFields r).data := by
    intro hc
    have := hn _ hc
    simp at this
  rw [serializeRow_data, List.count_append, List.count_append,
    List.count_eq_zero.mpr hnl, List.count_eq_zero.mpr hcr]
  exact ⟨rfl, rfl⟩

theorem joinSep_ne_empty {sep : String} {l : List String}
    (h : ∀ x ∈ l, x ≠ "") (hl : l ≠ []) : joinSep sep l ≠ "" := by
  cases l with
  | nil => exact absurd rfl hl
  | cons x xs =>
    cases xs with
    | nil => exact h x (List.mem_singleton.mpr rfl)
    | cons y ys =>
      show x ++ sep ++ joinSep sep (y :: ys) ≠ ""
      exact prefix_append_ne_empty _ _
        (prefix_append_ne_empty _ _ (h x (List.mem_cons_self x _)))

theorem mem_tap_pool_good {sub : List String} (hsub : ∀ y ∈ sub, y ∈ shared_beers)
    {x : String} (hx : x ∈ (tap_only_beers ++ sub).dedup) :
    x ≠ "" ∧ cleanStr x = true := by
  rcases List.mem_append.mp (List.mem_dedup.mp hx) with h | h
  · exact goodVocab_mem goodVocab_tap_only h
  · exact goodVocab_mem goodVocab_shared (hsub x h)

theorem mem_can_pool_good {sub : List String} (hsub : ∀ y ∈ sub, y ∈ shared_beers)
    {x : String} (hx : x ∈ (can_only_beers ++ sub).dedup) :
    x ≠ "" ∧ cleanStr x = true := by
  rcases List.mem_append.mp (List.mem_dedup.mp hx) with h | h
  · exact goodVocab_mem goodVocab_can_only h
  · exact goodVocab_mem goodVocab_shared (hsub x h)

theorem burgerOK_good {s : String} (hs : burgerOK s) : s ≠ "" ∧ cleanStr s = true := by
  obtain ⟨a, n, ts, b, ha, hn, hb, _, _, _, hts, rfl⟩ := hs
  have hA := goodVocab_mem goodVocab_adjectives ha
  have hN := goodVocab_mem goodVocab_nouns hn
  have hB := goodVocab_mem goodVocab_buns hb
  have hJS : cleanStr (joinSep ", " ts) = true :=
    cleanStr_joinSep (by decide) (fun t ht => (goodVocab_mem goodVocab_toppings (hts t ht)).2)
  constructor
  · exact prefix_append_ne_empty _ _ (prefix_append_ne_empty _ _
      (prefix_append_ne_empty _ _ (prefix_append_ne_empty _ _
        (prefix_append_ne_empty _ _ (prefix_append_ne_empty _ _
          (prefix_append_ne_empty _ _ (by decide)))))))
  · simp only [cleanStr_append, hA.2, hN.2, hB.2, hJS]
    decide

theorem tapOK_good {s : String} (hs : tapOK s) : s ≠ "" ∧ cleanStr s = true := by
  obtain ⟨sub, _, _, hsub, sel, _, h1, _, hmem, rfl⟩ := hs
  have hsel : ∀ x ∈ sel, x ≠ "" ∧ cleanStr x = true :=
    fun x hx => mem_tap_pool_good hsub (hmem x hx)
  constructor
  · apply joinSep_ne_empty (fun x hx => (hsel x hx).1)
    intro hnil
    rw [hnil] at h1
    exact absurd h1 (by decide)
  · exact cleanStr_joinSep (by decide) (fun x hx => (hsel x hx).2)

theorem canOK_good {s : String} (hs : canOK s) : s ≠ "" ∧ cleanStr s = true := by
  obtain ⟨sub, _, _, hsub, sel, _, h1, _, hmem, rfl⟩ := hs
  have hsel : ∀ x ∈ sel, x ≠ "" ∧ cleanStr x = true :=
    fun x hx => mem_can_pool_good hsub (hmem x hx)
  constructor
  · apply joinSep_ne_empty (fun x hx => (hsel x hx).1)
    intro hnil
    rw [hnil] at h1
    exact absurd h1 (by decide)
  · exact cleanStr_joinSep (by decide) (fun x hx => (hsel x hx).2)

theorem eventOK_good {s : String} (hs : eventOK s) : s ≠ "" ∧ cleanStr s = true := by
  obtain ⟨m, _, _, _, rfl⟩ := hs
  refine ⟨prefix_append_ne_empty _ _ (by decide), ?_⟩
  simp only [cleanStr_append, natToStr_clean]
  decide

theorem stickerOK_good {s : String} (hs : stickerOK s) : s ≠ "" ∧ cleanStr s = true := by
  obtain ⟨m, ext, _, _, _, hext, rfl⟩ := hs
  have hE := goodVocab_mem goodVocab_sticker hext
  refine ⟨prefix_append_ne_empty _ _ (prefix_append_ne_empty _ _ (by decide)), ?_⟩
  simp only [cleanStr_append, natToStr_clean, hE.2]
  decide

theorem rowOK_good {row : List String} (h : rowOK row) :
    ∀ f ∈ row, f ≠ "" ∧ cleanStr f = true := by
  obtain ⟨f1, f2, f3, f4, f5, rfl, hb, ht, hc, he, hs⟩ := h
  intro f hf
  simp only [List.mem_cons, List.not_mem_nil, or_false] at hf
  rcases hf with rfl | rfl | rfl | rfl | rfl
  · exact burgerOK_good hb
  · exact tapOK_good ht
  · exact canOK_good hc
  · exact eventOK_good he
  · exact stickerOK_good hs

/-- C10: every field of every generated row is a non-empty string containing
no delimiter, quote or line-break character (and so is every header field),
and any record of such fields serializes to exactly one line: its interior
has no line break and the record contributes exactly one `'\n'`. -/
theorem claim_C10_fields_clean_one_line (g : RNG) :
    ∃ row g2, generate_random_data g = some (row, g2) ∧
      (∀ f ∈ row, f ≠ "" ∧ cleanStr f = true) ∧
      (∀ f ∈ header, f ≠ "" ∧ cleanStr f = true) ∧
      (∀ r : List String, (∀ f ∈ r, cleanStr f = true) →
        noNL (serializeFields r) = true ∧
        (serializeRow r).data.count '\n' = 1 ∧
        (serializeRow r).data.count '\r' = 1) := by
  obtain ⟨row, g2, hrun, hrow, _⟩ := generate_row_spec g
  refine ⟨row, g2, hrun, rowOK_good hrow, ?_, ?_⟩
  · intro f hf
    exact goodVocab_mem goodVocab_header hf
  · intro r hr
    exact ⟨noNL_serializeFields hr, serializeRow_counts hr⟩

/-! ### Claim C1: shape of the written file -/

theorem writeRows_spec : ∀ (n : Nat) (g : RNG),
    ∃ rows g2, writeRows n g = some (rows, g2) ∧ rows.length = n ∧
      ∀ r ∈ rows, rowOK r := by
  intro n
  induction n with
  | zero =>
    intro g
    refine ⟨[], g, rfl, rfl, ?_⟩
    intro r hr
    cases hr
  | succ n ih =>
    intro g
    obtain ⟨row, g1, hrun, hrow, _⟩ := generate_row_spec g
    obtain ⟨rows, g2, hrec, hlen, hall⟩ := ih g1
    refine ⟨row :: rows, g2, ?_, by simp [hlen], ?_⟩
    · show writeRows (n + 1) g = _
      simp only [writeRows, hrun, hrec]
    · intro r hr
      rcases List.mem_cons.mp hr with hr | hr
      · exact hr ▸ hrow
      · exact hall r hr

theorem lineCount_concat_rows : ∀ (recs : List (List String)),
    (∀ r ∈ recs, ∀ f ∈ r, cleanStr f = true) →
    lineCount (concatAll (recs.map serializeRow)) = recs.length := by
  intro recs
  induction recs with
  | nil => intro _; rfl
  | cons r rest ih =>
    intro h
    show lineCount (serializeRow r ++ concatAll (rest.map serializeRow)) = rest.length + 1
    unfold lineCount
    rw [String.data_append, List.count_append]
    have h1 := (serializeRow_counts (h r (List.mem_cons_self r rest))).1
    have h2 := ih (fun q hq => h q (List.mem_cons_of_mem r hq))
    unfold lineCount at h2
    rw [h1, h2]
    omega

/-- C1: for every row count, `create_csv_file` (whose target is the fixed
file `dummy_historical_data.csv` and whose default row count is 500) writes
exactly one header record — the five fixed column names in order — followed
by that many generated records; every record is written as its fields each
wrapped in quotes, joined by `';'` and terminated by the line terminator,
and the resulting text has exactly `num_rows + 1` lines. -/
theorem claim_C1_file_shape (num_rows : Nat) (g : RNG) :
    output_filename = "dummy_historical_data.csv" ∧
    create_csv_file g = create_csv_file g 500 ∧
    header = ["Historical Burger", "Historical Tap Beers", "Historical Can Beers",
      "Historical Facebook Event", "Historical Sticker"] ∧
    ∃ recs, create_csv_records num_rows g = some recs ∧
      recs.length = num_rows + 1 ∧
      recs.head? = some header ∧
      (∀ r ∈ recs, r.length = 5) ∧
      create_csv_file g num_rows = some (concatAll (recs.map serializeRow)) ∧
      (∀ r ∈ recs, serializeRow r =
        joinSep ";" (r.map (fun f => "\"" ++ String.mk (escapeQuotes f.data) ++ "\"")) ++
          "\r\n") ∧
      lineCount (concatAll (recs.map serializeRow)) = num_rows + 1 := by
  refine ⟨rfl, rfl, rfl, ?_⟩
  obtain ⟨rows, g2, hw, hlen, hall⟩ := writeRows_spec num_rows g
  have hrecs : create_csv_records num_rows g = some (header :: rows) := by
    unfold create_csv_records
    rw [hw]
    rfl
  have hclean : ∀ r ∈ header :: rows, ∀ f ∈ r, cleanStr f = true := by
    intro r hr
    rcases List.mem_cons.mp hr with hr | hr
    · intro f hf
      exact (goodVocab_mem goodVocab_header (hr ▸ hf)).2
    · exact fun f hf => (rowOK_good (hall r hr) f hf).2
  refine ⟨header :: rows, hrecs, by simp [hlen], rfl, ?_, ?_, ?_, ?_⟩
  · intro r hr
    rcases List.mem_cons.mp hr with hr | hr
    · rw [hr]
      rfl
    · obtain ⟨f1, f2, f3, f4, f5, rfl, -⟩ := hall r hr
      rfl
  · unfold create_csv_file
    rw [hrecs]
    rfl
  · intro r _
    rfl
  · rw [lineCount_concat_rows _ hclean]
    simp [hlen]

/-! ### Claim C7: round trip through the reader -/

theorem parseQuoted_clean : ∀ (f : List Char), (∀ c ∈ f, c ≠ '"') →
    ∀ rest : List Char, rest.head? ≠ some '"' →
      parseQuoted (f ++ '"' :: rest) = some (f, rest) := by
  intro f
  induction f with
  | nil =>
    intro _ rest hrest
    show parseQuoted ('"' :: rest) = some ([], rest)
    unfold parseQuoted
    rw [if_pos rfl]
    cases rest with
    | nil => rfl
    | cons c2 rest2 =>
      have hc2 : c2 ≠ '"' := by
        intro h
        exact hrest (by rw [h]; rfl)
      simp [hc2]
  | cons c f ih =>
    intro hf rest hrest
    have hc : c ≠ '"' := hf c (List.mem_cons_self c f)
    show parseQuoted (c :: (f ++ '"' :: rest)) = some (c :: f, rest)
    unfold parseQuoted
    rw [if_neg hc, ih (fun d hd => hf d (List.mem_cons_of_mem c hd)) rest hrest]
    rfl

theorem quoteField_data (f : String) :
    (quoteField f).data = '"' :: (escapeQuotes f.data ++ ['"']) := by
  unfold quoteField
  rw [String.data_append, String.data_append]
  rfl

theorem serializeFields_length_ge : ∀ (r : List String),
    r.length ≤ (serializeFields r).data.length := by
  intro r
  induction r with
  | nil => exact Nat.zero_le _
  | cons f rest ih =>
    cases rest with
    | nil =>
      show 1 ≤ (quoteField f).data.length
      rw [quoteField_data]
      simp
    | cons g rest2 =>
      show (f :: g :: rest2).length ≤
        ((quoteField f ++ ";" ++ serializeFields (g :: rest2))).data.length
      rw [String.data_append, String.data_append, quoteField_data]
      have h2 := ih
      simp only [List.length_cons, List.length_append] at h2 ⊢
      omega

theorem parseFieldsAux_serialize : ∀ (r : List String) (fuel : Nat), r ≠ [] →
    (∀ f ∈ r, cleanStr f = true) → r.length ≤ fuel →
    parseFieldsAux fuel (serializeFields r).data = some r := by
  intro r
  induction r with
  | nil => intro fuel h; exact absurd rfl h
  | cons f rest ih =>
    intro fuel _ hclean hfuel
    obtain ⟨fuel, rfl⟩ : ∃ m, fuel = m + 1 := by
      cases fuel with
      | zero => exfalso; simp at hfuel
      | succ m => exact ⟨m, rfl⟩
    have hf := hclean f (List.mem_cons_self f rest)
    have hnoq : ∀ c ∈ f.data, c ≠ '"' := fun c hc => (cleanStr_chars hf c hc).2.1
    cases rest with
    | nil =>
      show parseFieldsAux (fuel + 1) (quoteField f).data = some [f]
      rw [quoteField_data_of_clean hf]
      unfold parseFieldsAux
      rw [if_pos rfl]
      have hq : parseQuoted (f.data ++ '"' :: ([] : List Char)) = some (f.data, []) :=
        parseQuoted_clean f.data hnoq [] (by intro h; cases h)
      rw [show f.data ++ ['"'] = f.data ++ '"' :: ([] : List Char) from rfl, hq,
        Option.some_bind]
    | cons g rest2 =>
      have hser : serializeFields (f :: g :: rest2) =
          quoteField f ++ ";" ++ serializeFields (g :: rest2) := rfl
      rw [hser, String.data_append, String.data_append, quoteField_data_of_clean hf]
      have hrearr : (('"' :: (f.data ++ ['"'])) ++ (";").data ++
          (serializeFields (g :: rest2)).data) =
          '"' :: (f.data ++ '"' :: ';' :: (serializeFields (g :: rest2)).data) := by
        simp
      rw [hrearr]
      unfold parseFieldsAux
      rw [if_pos rfl]
      have hq : parseQuoted (f.data ++ '"' :: (';' :: (serializeFields (g :: rest2)).data)) =
          some (f.data, ';' :: (serializeFields (g :: rest2)).data) :=
        parseQuoted_clean f.data hnoq _ (by intro h; simp at h)
      rw [hq, Option.some_bind]
      have hrec := ih (fuel) (by simp) (fun x hx => hclean x (List.mem_cons_of_mem f hx))
        (by simp at hfuel ⊢; omega)
      show (if (';' : Char) = ';' then
          (parseFieldsAux fuel (serializeFields (g :: rest2)).data).map
            (fun fs => String.mk f.data :: fs)
        else none) = some (f :: g :: rest2)
      rw [if_pos rfl, hrec]
      rfl

theorem parseLine_serialize {r : List String} (hne : r ≠ [])
    (hclean : ∀ f ∈ r, cleanStr f = true) :
    parseLine ((serializeFields r).data ++ ['\r']) = some r := by
  unfold parseLine
  rw [List.getLast?_concat, if_pos rfl, List.dropLast_concat]
  apply parseFieldsAux_serialize r _ hne hclean
  have h1 := serializeFields_length_ge r
  simp only [List.length_append, List.length_cons, List.length_nil]
  omega

theorem splitNL_cons_eq : ∀ (l1 : List Char), (∀ c ∈ l1, c ≠ '\n') →
    ∀ rest : List Char, splitNL (l1 ++ '\n' :: rest) = l1 :: splitNL rest := by
  intro l1
  induction l1 with
  | nil =>
    intro _ rest
    show splitNL ('\n' :: rest) = [] :: splitNL rest
    conv_lhs => unfold splitNL
    rw [if_pos rfl]
  | cons c l1 ih =>
    intro h rest
    have hc : c ≠ '\n' := h c (List.mem_cons_self c l1)
    show splitNL (c :: (l1 ++ '\n' :: rest)) = (c :: l1) :: splitNL rest
    conv_lhs => unfold splitNL
    rw [if_neg hc, ih (fun d hd => h d (List.mem_cons_of_mem c hd)) rest]
    rfl

theorem splitNL_ne_nil : ∀ l : List Char, ∃ a as, splitNL l = a :: as := by
  intro l
  cases l with
  | nil => exact ⟨[], [], rfl⟩
  | cons c rest =>
    by_cases hc : c = '\n'
    · refine ⟨[], splitNL rest, ?_⟩
      show splitNL (c :: rest) = _
      conv_lhs => unfold splitNL
      rw [if_pos hc]
    · refine ⟨c :: (splitNL rest).headI, (splitNL rest).tail, ?_⟩
      show splitNL (c :: rest) = _
      conv_lhs => unfold splitNL
      rw [if_neg hc]

theorem parseFile_of_records : ∀ (recs : List (List String)),
    (∀ r ∈ recs, r ≠ [] ∧ ∀ f ∈ r, cleanStr f = true) →
    parseFile (concatAll (recs.map serializeRow)) = some recs := by
  intro recs
  induction recs with
  | nil => intro _; rfl
  | cons r recs ih =>
    intro h
    obtain ⟨hne, hclean⟩ := h r (List.mem_cons_self r recs)
    have hrest := ih (fun q hq => h q (List.mem_cons_of_mem r hq))
    unfold parseFile at hrest ⊢
    show parseChunks (splitNL ((serializeRow r ++ concatAll (recs.map serializeRow))).data) =
      some (r :: recs)
    rw [String.data_append, serializeRow_data]
    have hrearr : ((serializeFields r).data ++ ['\r', '\n']) ++
        (concatAll (recs.map serializeRow)).data =
        ((serializeFields r).data ++ ['\r']) ++
          ('\n' :: (concatAll (recs.map serializeRow)).data) := by
      simp
    rw [hrearr]
    have hnonl : ∀ c ∈ (serializeFields r).data ++ ['\r'], c ≠ '\n' := by
      intro c hc
      rcases List.mem_append.mp hc with hc | hc
      · have hall := noNL_serializeFields hclean
        unfold noNL at hall
        rw [List.all_eq_true] at hall
        have := hall c hc
        intro he
        rw [he] at this
        simp at this
      · rw [List.mem_singleton.mp hc]
        decide
    rw [splitNL_cons_eq _ hnonl]
    obtain ⟨a, as, ha⟩ := splitNL_ne_nil (concatAll (recs.map serializeRow)).data
    rw [ha]
    show parseChunks (((serializeFields r).data ++ ['\r']) :: a :: as) = some (r :: recs)
    unfold parseChunks
    rw [parseLine_serialize hne hclean]
    rw [ha] at hrest
    rw [hrest]

/-- C7: generating with row count 10 yields a file of exactly 11 lines
(header plus 10 rows), and parsing the file text back with the `';'`,
fully-quoted dialect recovers exactly the header and the 10 generated rows,
each of which satisfies all five field patterns. -/
theorem claim_C7_roundtrip (g : RNG) :
    ∃ rows contents,
      create_csv_records 10 g = some (header :: rows) ∧
      rows.length = 10 ∧
      create_csv_file g 10 = some contents ∧
      lineCount contents = 11 ∧
      parseFile contents = some (header :: rows) ∧
      ∀ r ∈ rows, rowOK r := by
  obtain ⟨rows, g2, hw, hlen, hall⟩ := writeRows_spec 10 g
  have hrecs : create_csv_records 10 g = some (header :: rows) := by
    unfold create_csv_records
    rw [hw]
    rfl
  have hgood : ∀ r ∈ header :: rows, r ≠ [] ∧ ∀ f ∈ r, cleanStr f = true := by
    intro r hr
    rcases List.mem_cons.mp hr with hr | hr
    · subst hr
      exact ⟨by decide, fun f hf => (goodVocab_mem goodVocab_header hf).2⟩
    · obtain ⟨f1, f2, f3, f4, f5, hshape, -⟩ := hall r hr
      refine ⟨by rw [hshape]; simp, fun f hf => (rowOK_good (hall r hr) f hf).2⟩
  refine ⟨rows, concatAll ((header :: rows).map serializeRow), hrecs, hlen, ?_, ?_, ?_, ?_⟩
  · unfold create_csv_file
    rw [hrecs]
    rfl
  · rw [lineCount_concat_rows _ (fun r hr => (hgood r hr).2)]
    simp [hlen]
  · exact parseFile_of_records _ hgood
  · exact fun r hr => hall r hr

end DummyData
